import Mathlib

/-!
Verification of the FedT4T round-orchestration program (`main.py`).

The Python source is shallowly embedded below: pure functions become Lean
functions over `ℕ`/`ℚ`/lists, dictionaries become association lists, and
fallible code returns `Except String`. Components of the repository that are
not part of `main.py` (the Axelrod strategy catalogue, the Flower framework,
`model.py`, `ipd_tournament_server.py`) appear only through the values
`main.py` hands to them or, where a claim needs their behaviour, as
definitions modelled from the specification and marked as such.
-/

namespace FedT4T

/-! ## Module constants (main.py lines 32–35) -/

/-- From main.py line 32: `num_rounds = 20`. -/
def num_rounds : ℕ := 20

/-- From main.py line 33: `SEED = 42`. -/
def SEED : ℕ := 42

/-- From main.py line 35: `strategy_mem_depth = 1`. -/
def strategy_mem_depth : ℕ := 1

/-! ## Metrics and `weighted_average` (main.py lines 180–186)

Python `Metrics` is a dictionary from string keys to numeric scalars,
embedded as an association list over `ℚ`. `m["accuracy"]` raises `KeyError`
when the key is absent and `sum(accuracies) / sum(examples)` raises
`ZeroDivisionError` when the example counts sum to zero, so the embedding
returns `Except String`. -/

abbrev Metrics := List (String × ℚ)

/-- Dictionary access `m["accuracy"]` as an association-list lookup. -/
def getAccuracy (m : Metrics) : Option ℚ := m.lookup "accuracy"

/-- The list comprehension of main.py line 182:
`[num_examples * m["accuracy"] for num_examples, m in metrics]`,
evaluated left to right, failing at the first metrics dictionary without
an `"accuracy"` key (Python `KeyError`). -/
def accTimesExamples : List (ℕ × Metrics) → Except String (List ℚ)
  | [] => Except.ok []
  | p :: t =>
    match getAccuracy p.2 with
    | some a =>
      match accTimesExamples t with
      | Except.ok r => Except.ok ((p.1 : ℚ) * a :: r)
      | Except.error e => Except.error e
    | none => Except.error "KeyError: accuracy"

/-- main.py lines 180–186: the metric aggregation callback.
The `accuracies` comprehension is evaluated first (line 182), then
`examples` (line 183), then the quotient (line 186); `sum(examples) = 0`
raises `ZeroDivisionError`. -/
def weighted_average (metrics : List (ℕ × Metrics)) : Except String Metrics :=
  match accTimesExamples metrics with
  | Except.error e => Except.error e
  | Except.ok accuracies =>
    let examples : List ℕ := metrics.map (fun p => p.1)
    if examples.sum = 0 then Except.error "ZeroDivisionError"
    else Except.ok [("accuracy", accuracies.sum / (examples.sum : ℚ))]

/-- The value stored under `"accuracy"`, defaulting to `0`; used only to
state theorems about inputs whose dictionaries do carry the key. -/
def accVal (m : Metrics) : ℚ := (getAccuracy m).getD 0

/-- The implicit per-client weight `num_examples_i / Σ_j num_examples_j`
induced by `weighted_average` (one weight per entry of the input list). -/
def clientWeights (metrics : List (ℕ × Metrics)) : List ℚ :=
  metrics.map
    (fun p => (p.1 : ℚ) / (((metrics.map (fun q => q.1)).sum : ℕ) : ℚ))

/-! ## Startup: strategy list and shuffle (main.py lines 191–197, 240–242)

The module body runs top to bottom when the interpreter loads `main.py`:
`client_strategies` is built and shuffled at lines 191–195, and only
afterwards does the `__main__` guard call `sow_seed(SEED)` at line 241.
The draws consumed by `random.shuffle` therefore come from the ambient,
not-yet-seeded generator; they are modelled as an explicit input
`preSeedDraws`. The catalogue returned by
`axl.filtered_strategies(... memory_depth ...)` lives in the external
Axelrod library, so the base list is a parameter (strategies are
identified by name). -/

/-- Exchange the entries at positions `i` and `j` (CPython
`x[i], x[j] = x[j], x[i]` inside `random.shuffle`). -/
def swapAt (l : List α) (i j : ℕ) : List α :=
  match l.get? i, l.get? j with
  | some a, some b => (l.set i b).set j a
  | _, _ => l

/-- CPython `random.shuffle`: for `i` in `reversed(range(1, len(x)))`,
draw `j` uniformly from `[0, i]` and swap `x[i]` with `x[j]`. The raw
draw for each step is supplied by `draws` and reduced modulo `i + 1`. -/
def pyShuffle (draws : List ℕ) (l : List α) : List α :=
  (List.zip ((List.range l.length).drop 1).reverse draws).foldl
    (fun acc ij => swapAt acc ij.1 (ij.2 % (ij.1 + 1))) l

/-- The observable outcome of executing the module body and then the
`__main__` guard: the shuffled `client_strategies` list (line 195) and the
seed finally sown into the RNGs (line 241). -/
structure StartupResult where
  client_strategies : List String
  rngSeededWith : ℕ
deriving DecidableEq

/-- main.py lines 191–197 followed by line 241: build the strategy list,
shuffle it with the ambient (unseeded) RNG, then call `sow_seed(SEED)`.
`base` stands for the Axelrod catalogue with `Random()` appended
(lines 191–193); `preSeedDraws` are the RNG outputs available before any
seeding. -/
def moduleStartup (base : List String) (preSeedDraws : List ℕ) : StartupResult :=
  StartupResult.mk (pyShuffle preSeedDraws base) SEED

/-- main.py line 197: `NUM_PARTITIONS = len(client_strategies)`. -/
def NUM_PARTITIONS (client_strategies : List String) : ℕ :=
  client_strategies.length

/-! ## `client_fn` (main.py lines 130–151) -/

/-- main.py line 143: `client_ipd_strat = client_strategies[partition_id]`.
Out-of-range access raises `IndexError`, hence `Option`. -/
def clientStrategyFor (client_strategies : List String) (partition_id : ℕ) :
    Option String :=
  client_strategies.get? partition_id

/-- main.py line 144: `client_ipd_strat.set_seed(SEED)` — the argument
passed to `set_seed` for a given partition id. It is the module constant
`SEED`, independent of the partition id, and `client_fn` has no round
parameter (the strategy is seeded once, at client construction). -/
def clientFnSetSeedArg (partition_id : ℕ) : ℕ := SEED

/-! ## `server_fn` (main.py lines 153–177) -/

/-- The state_dict of the global model (`Net(num_classes=10)` from the
external `model.py`): an ordered list of named numeric tensors. -/
structure Model where
  state_dict : List (String × List ℚ)

/-- main.py lines 105–107: parameters as the list of state_dict values. -/
def get_params (model : Model) : List (List ℚ) :=
  model.state_dict.map (fun kv => kv.2)

/-- The `flwr.common.Parameters` wrapper produced by
`ndarrays_to_parameters`. -/
structure Parameters where
  tensors : List (List ℚ)
deriving DecidableEq

/-- `flwr.common.ndarrays_to_parameters`: wraps the ndarray list. -/
def ndarrays_to_parameters (ndarrays : List (List ℚ)) : Parameters :=
  Parameters.mk ndarrays

/-- The arguments main.py lines 162–168 pass to the `FedAvg` constructor. -/
structure FedAvgStrategy where
  fraction_fit : ℚ
  fraction_evaluate : ℚ
  evaluate_metrics_aggregation_fn : List (ℕ × Metrics) → Except String Metrics
  initial_parameters : Parameters

/-- `flwr.server.ServerConfig` as constructed at main.py line 174. -/
structure ServerConfig where
  num_rounds : ℕ
deriving DecidableEq

/-- The `ServerAppComponents` returned by `server_fn`: the strategy handed
to the `Ipd_TournamentServer` and the run configuration. -/
structure ServerAppComponents where
  strategy : FedAvgStrategy
  config : ServerConfig

/-- main.py lines 153–177: instantiate the model, convert its parameters,
build the `FedAvg` strategy with `fraction_fit=0.5`,
`fraction_evaluate=0.1`, `evaluate_metrics_aggregation_fn=weighted_average`
and the fresh model as `initial_parameters`, and wrap it with
`ServerConfig(num_rounds=num_rounds)`. The freshly initialised
`Net(num_classes=10)` comes from the external `model.py`, so the model is
a parameter. -/
def server_fn (model : Model) : ServerAppComponents :=
  let ndarrays := get_params model
  let global_model_init := ndarrays_to_parameters ndarrays
  ServerAppComponents.mk
    (FedAvgStrategy.mk (1 / 2) (1 / 10) weighted_average global_model_init)
    (ServerConfig.mk num_rounds)

/-! ## Round orchestrator (spec §4.5; `ipd_tournament_server.py` is not
under src/) -/

/-- Modelled from the spec: the Round Orchestrator state machine of §4.5
(implemented by `Ipd_TournamentServer`, a repository file not under src/).
A run is either still executing rounds (carrying the count of completed
iterations) or has reached `TERMINATE`. -/
inductive OrchPhase where
  | running (completed : ℕ)
  | TERMINATE
deriving DecidableEq

/-- Modelled from the spec: one full round of the §4.5 state machine
(`TOURNAMENT → … → METRIC_AGGREGATE`), collapsed to its effect on the
round counter; `TERMINATE` is reached after `num_rounds` iterations and is
absorbing. -/
def orchStep (cfg : ServerConfig) : OrchPhase → OrchPhase
  | OrchPhase.running completed =>
    if completed + 1 < cfg.num_rounds then OrchPhase.running (completed + 1)
    else OrchPhase.TERMINATE
  | OrchPhase.TERMINATE => OrchPhase.TERMINATE

/-! ## `test` (main.py lines 90–103) -/

/-- The mutable part of a PyTorch module visible to `test`: its parameters
and its train/eval mode flag (`net.eval()` clears the flag; nothing in
`test` writes the parameters). -/
structure Net where
  params : List (List ℚ)
  training : Bool
deriving DecidableEq

/-- `net.eval()`: switch the module to evaluation mode. -/
def Net.evalMode (net : Net) : Net := Net.mk net.params false

/-- A PyTorch `DataLoader` over a labelled dataset of `α`-examples:
`len(testloader.dataset)` reads `dataset`, iteration yields `batches`
(which, without `drop_last`, partition the dataset). -/
structure DataLoader (α : Type) where
  dataset : List (α × ℕ)
  batches : List (List (α × ℕ))

/-- `torch.max(outputs.data, 1)` per row: the index of the first maximal
entry of the class-score vector. -/
def argmaxAux : List ℚ → ℕ → ℕ → ℚ → ℕ
  | [], _, best, _ => best
  | x :: t, i, best, bestVal =>
    if bestVal < x then argmaxAux t (i + 1) i x
    else argmaxAux t (i + 1) best bestVal

/-- Index of the first maximal entry (0 on the empty list). -/
def argmaxIdx : List ℚ → ℕ
  | [] => 0
  | x :: t => argmaxAux t 1 0 x

/-- main.py lines 90–103. `forward` is the opaque network application
(`net(images)`, from the external `model.py`) giving per-class scores,
and `criterion` the opaque batch loss (`torch.nn.CrossEntropyLoss`).
The body: switch to eval mode, then for each batch accumulate the batch
loss and the number of examples whose predicted class equals the label;
finally `accuracy = correct / len(testloader.dataset)`. The embedding
also returns the network as left behind by the call, exposing the
mutation performed (only `net.eval()`). -/
def test {α : Type} (forward : Net → α → List ℚ)
    (criterion : List (List ℚ) → List ℕ → ℚ)
    (net : Net) (testloader : DataLoader α) : (ℚ × ℚ) × Net :=
  let netE := net.evalMode
  let r := testloader.batches.foldl
    (fun (acc : ℕ × ℚ) batch =>
      let outputs := batch.map (fun ex => forward netE ex.1)
      let labels := batch.map (fun ex => ex.2)
      let loss := acc.2 + criterion outputs labels
      let correct := acc.1 +
        (outputs.zip labels).countP (fun q => argmaxIdx q.1 == q.2)
      (correct, loss))
    (0, 0)
  ((r.2, (r.1 : ℚ) / (testloader.dataset.length : ℚ)), netE)

/-- Specification-side count of correctly classified examples of a
dataset: those whose first-maximal class score equals the label. -/
def countCorrect {α : Type} (forward : Net → α → List ℚ) (net : Net)
    (ds : List (α × ℕ)) : ℕ :=
  ds.countP (fun ex => argmaxIdx (forward net ex.1) == ex.2)

/-! ## Helper lemmas about `weighted_average` -/

/-- When every metrics dictionary carries the `"accuracy"` key, the
comprehension of line 182 succeeds and yields the products. -/
lemma accTimesExamples_eq_ok (l : List (ℕ × Metrics))
    (hacc : ∀ p ∈ l, (getAccuracy p.2).isSome) :
    accTimesExamples l =
      Except.ok (l.map (fun p => (p.1 : ℚ) * accVal p.2)) := by
  induction l with
  | nil => rfl
  | cons a t ih =>
    have ha : (getAccuracy a.2).isSome := hacc a (List.mem_cons_self a t)
    obtain ⟨v, hv⟩ := Option.isSome_iff_exists.mp ha
    have ht := ih (fun p hp => hacc p (List.mem_cons_of_mem a hp))
    simp [accTimesExamples, hv, ht, accVal]

/-- Closed form of `weighted_average` on well-formed inputs with a
nonzero total example count. -/
lemma weighted_average_eq (l : List (ℕ × Metrics))
    (hacc : ∀ p ∈ l, (getAccuracy p.2).isSome)
    (hsum : (l.map (fun p => p.1)).sum ≠ 0) :
    weighted_average l =
      Except.ok [("accuracy",
        (l.map (fun p => (p.1 : ℚ) * accVal p.2)).sum /
          (((l.map (fun p => p.1)).sum : ℕ) : ℚ))] := by
  unfold weighted_average
  rw [accTimesExamples_eq_ok l hacc]
  simp [hsum]

/-- The comprehension of line 182 reads only the example count and the
`"accuracy"` entry of each pair. -/
lemma accTimesExamples_congr {l l₂ : List (ℕ × Metrics)}
    (h : List.Forall₂
      (fun p q => p.1 = q.1 ∧ getAccuracy p.2 = getAccuracy q.2) l l₂) :
    accTimesExamples l = accTimesExamples l₂ := by
  induction h with
  | nil => rfl
  | cons hpq _ ih =>
    obtain ⟨h1, h2⟩ := hpq
    simp only [accTimesExamples, h1, h2, ih]

/-- Pointwise equal example counts give equal count lists. -/
lemma mapFst_congr {l l₂ : List (ℕ × Metrics)}
    (h : List.Forall₂
      (fun p q => p.1 = q.1 ∧ getAccuracy p.2 = getAccuracy q.2) l l₂) :
    l.map (fun p => p.1) = l₂.map (fun p => p.1) := by
  induction h with
  | nil => rfl
  | cons hpq _ ih =>
    simp only [List.map_cons, hpq.1, ih]

/-- `weighted_average` depends only on the example counts and the
`"accuracy"` entries. -/
lemma weighted_average_congr {l l₂ : List (ℕ × Metrics)}
    (h : List.Forall₂
      (fun p q => p.1 = q.1 ∧ getAccuracy p.2 = getAccuracy q.2) l l₂) :
    weighted_average l = weighted_average l₂ := by
  unfold weighted_average
  rw [accTimesExamples_congr h, mapFst_congr h]

/-! ## Helper lemmas about `test` -/

/-- Counting matching prediction/label pairs over the zipped batch maps
counts the correctly classified examples of the batch. -/
lemma zip_countP_eq_countCorrect {α : Type} (forward : Net → α → List ℚ)
    (netE : Net) (batch : List (α × ℕ)) :
    ((batch.map (fun ex => forward netE ex.1)).zip
        (batch.map (fun ex => ex.2))).countP
        (fun q => argmaxIdx q.1 == q.2) =
      countCorrect forward netE batch := by
  rw [List.zip_map', List.countP_map]
  rfl

/-- The `correct` accumulator of the fold inside `test` totals the
per-batch correct counts. -/
lemma test_fold_correct {α : Type} (forward : Net → α → List ℚ)
    (criterion : List (List ℚ) → List ℕ → ℚ) (netE : Net) :
    ∀ (bs : List (List (α × ℕ))) (acc : ℕ × ℚ),
    (bs.foldl (fun (acc : ℕ × ℚ) batch =>
        let outputs := batch.map (fun ex => forward netE ex.1)
        let labels := batch.map (fun ex => ex.2)
        let loss := acc.2 + criterion outputs labels
        let correct := acc.1 +
          (outputs.zip labels).countP (fun q => argmaxIdx q.1 == q.2)
        (correct, loss)) acc).1 =
      acc.1 + (bs.map (countCorrect forward netE)).sum := by
  intro bs
  induction bs with
  | nil => intro acc; simp
  | cons b t ih =>
    intro acc
    simp only [List.foldl_cons, List.map_cons, List.sum_cons]
    rw [ih]
    simp only [zip_countP_eq_countCorrect]
    omega

/-- The correct count over a dataset equals the summed correct counts of
batches that partition it. -/
lemma countCorrect_flatten {α : Type} (forward : Net → α → List ℚ)
    (netE : Net) (bs : List (List (α × ℕ))) :
    countCorrect forward netE bs.flatten =
      (bs.map (countCorrect forward netE)).sum := by
  unfold countCorrect
  rw [List.countP_flatten]

/-- Dividing each summand by a constant divides the sum. -/
lemma list_sum_map_div {α : Type} (l : List α) (f : α → ℚ) (c : ℚ) :
    (l.map (fun x => f x / c)).sum = (l.map f).sum / c := by
  induction l with
  | nil => simp
  | cons a t ih => simp [ih, add_div]

/-- The cast of a sum of example counts is the sum of the casts. -/
lemma cast_sum_mapFst (l : List (ℕ × Metrics)) :
    (((l.map (fun p => p.1)).sum : ℕ) : ℚ) =
      (l.map (fun p => (p.1 : ℚ))).sum := by
  induction l with
  | nil => simp
  | cons a t ih => simp [ih]

/-- Lower bound: when every accuracy is at least `lo`, the weighted sum
of accuracies is at least `lo` times the total example count. -/
lemma weighted_sum_lower (lo : ℚ) (l : List (ℕ × Metrics))
    (h : ∀ p ∈ l, lo ≤ accVal p.2) :
    lo * (((l.map (fun p => p.1)).sum : ℕ) : ℚ) ≤
      (l.map (fun p => (p.1 : ℚ) * accVal p.2)).sum := by
  induction l with
  | nil => simp
  | cons a t ih =>
    have ha : lo ≤ accVal a.2 := h a (List.mem_cons_self a t)
    have ht := ih (fun p hp => h p (List.mem_cons_of_mem a hp))
    have hstep : (a.1 : ℚ) * lo ≤ (a.1 : ℚ) * accVal a.2 :=
      mul_le_mul_of_nonneg_left ha (Nat.cast_nonneg a.1)
    simp only [List.map_cons, List.sum_cons, Nat.cast_add]
    nlinarith [ht, hstep]

/-- Upper bound: when every accuracy is at most `hi`, the weighted sum
of accuracies is at most `hi` times the total example count. -/
lemma weighted_sum_upper (hi : ℚ) (l : List (ℕ × Metrics))
    (h : ∀ p ∈ l, accVal p.2 ≤ hi) :
    (l.map (fun p => (p.1 : ℚ) * accVal p.2)).sum ≤
      hi * (((l.map (fun p => p.1)).sum : ℕ) : ℚ) := by
  induction l with
  | nil => simp
  | cons a t ih =>
    have ha : accVal a.2 ≤ hi := h a (List.mem_cons_self a t)
    have ht := ih (fun p hp => h p (List.mem_cons_of_mem a hp))
    have hstep : (a.1 : ℚ) * accVal a.2 ≤ (a.1 : ℚ) * hi :=
      mul_le_mul_of_nonneg_left ha (Nat.cast_nonneg a.1)
    simp only [List.map_cons, List.sum_cons, Nat.cast_add]
    nlinarith [ht, hstep]

/-- A non-empty list of pairs with positive example counts has a
positive total example count. -/
lemma sum_mapFst_pos (l : List (ℕ × Metrics)) (hne : l ≠ [])
    (hpos : ∀ p ∈ l, 0 < p.1) : 0 < (l.map (fun p => p.1)).sum := by
  match l, hne with
  | a :: t, _ =>
    have ha : 0 < a.1 := hpos a (List.mem_cons_self a t)
    have : a.1 ≤ (List.map (fun p => p.1) (a :: t)).sum := by
      simp [Nat.le_add_right]
    exact Nat.lt_of_lt_of_le ha this

/-! ## Claim theorems -/

/-- C1: on every non-empty input whose example counts sum to a nonzero
value, `weighted_average` returns the single scalar metric
`{"accuracy": (Σ num_examples_i * metrics_i["accuracy"]) / (Σ num_examples_i)}`
— the example-count-weighted mean of the reported accuracies — and its
result depends on no field of the metrics other than `"accuracy"`. -/
theorem C1_weighted_average_is_weighted_mean (l : List (ℕ × Metrics))
    (hne : l ≠ []) (hsum : (l.map (fun p => p.1)).sum ≠ 0)
    (hacc : ∀ p ∈ l, (getAccuracy p.2).isSome) :
    weighted_average l =
      Except.ok [("accuracy",
        (l.map (fun p => (p.1 : ℚ) * accVal p.2)).sum /
          (((l.map (fun p => p.1)).sum : ℕ) : ℚ))] ∧
    ∀ l₂, List.Forall₂
        (fun p q => p.1 = q.1 ∧ getAccuracy p.2 = getAccuracy q.2) l l₂ →
      weighted_average l = weighted_average l₂ := by
  refine ⟨weighted_average_eq l hacc hsum, ?_⟩
  intro l₂ h
  exact weighted_average_congr h

/-- Concrete input for the C1 witness: two clients reporting accuracies
1/2 (2 examples) and 1 (3 examples); the extra `"loss"` field is unused. -/
def c1demo : List (ℕ × Metrics) :=
  [(2, [("accuracy", 1 / 2), ("loss", 7)]), (3, [("accuracy", 1)])]

/-- C1 witness: the hypotheses hold of `c1demo` and the theorem applies. -/
theorem C1_weighted_average_is_weighted_mean_witness :
    (c1demo ≠ [] ∧ (c1demo.map (fun p => p.1)).sum ≠ 0 ∧
      ∀ p ∈ c1demo, (getAccuracy p.2).isSome) ∧
    (weighted_average c1demo =
      Except.ok [("accuracy",
        (c1demo.map (fun p => (p.1 : ℚ) * accVal p.2)).sum /
          (((c1demo.map (fun p => p.1)).sum : ℕ) : ℚ))] ∧
    ∀ l₂, List.Forall₂
        (fun p q => p.1 = q.1 ∧ getAccuracy p.2 = getAccuracy q.2) c1demo l₂ →
      weighted_average c1demo = weighted_average l₂) :=
  ⟨⟨by decide, by decide, by decide⟩,
    C1_weighted_average_is_weighted_mean c1demo (by decide) (by decide)
      (by decide)⟩

/-- C2: with positive example counts, the implicit per-client weights
`num_examples_i / Σ_j num_examples_j` of `weighted_average` are one per
input client, non-negative, and sum to 1; equivalently the returned
accuracy is a convex combination of the inputs and lies between every
lower and every upper bound of them (in particular between their minimum
and maximum). -/
theorem C2_weights_sum_to_one_convex (l : List (ℕ × Metrics))
    (hne : l ≠ []) (hpos : ∀ p ∈ l, 0 < p.1)
    (hacc : ∀ p ∈ l, (getAccuracy p.2).isSome) :
    (clientWeights l).length = l.length ∧
    (∀ w ∈ clientWeights l, 0 ≤ w) ∧
    (clientWeights l).sum = 1 ∧
    ∃ r, weighted_average l = Except.ok [("accuracy", r)] ∧
      (∀ lo, (∀ p ∈ l, lo ≤ accVal p.2) → lo ≤ r) ∧
      (∀ hi, (∀ p ∈ l, accVal p.2 ≤ hi) → r ≤ hi) := by
  have hS : 0 < (l.map (fun p => p.1)).sum := sum_mapFst_pos l hne hpos
  have hSQ : (0 : ℚ) < (((l.map (fun p => p.1)).sum : ℕ) : ℚ) := by
    exact_mod_cast hS
  have hSne : (((l.map (fun p => p.1)).sum : ℕ) : ℚ) ≠ 0 := ne_of_gt hSQ
  refine ⟨by simp [clientWeights], ?_, ?_, ?_⟩
  · intro w hw
    obtain ⟨p, _, rfl⟩ := List.mem_map.mp hw
    exact div_nonneg (Nat.cast_nonneg p.1) (le_of_lt hSQ)
  · unfold clientWeights
    rw [list_sum_map_div l (fun p => (p.1 : ℚ)) _, ← cast_sum_mapFst l]
    exact div_self hSne
  · refine ⟨(l.map (fun p => (p.1 : ℚ) * accVal p.2)).sum /
      (((l.map (fun p => p.1)).sum : ℕ) : ℚ),
      weighted_average_eq l hacc (Nat.pos_iff_ne_zero.mp hS), ?_, ?_⟩
    · intro lo hlo
      exact (le_div_iff₀ hSQ).mpr (by
        have := weighted_sum_lower lo l hlo
        linarith)
    · intro hi hhi
      exact (div_le_iff₀ hSQ).mpr (by
        have := weighted_sum_upper hi l hhi
        linarith)

/-- Concrete input for the C2 witness: accuracies 1/4, 3/4, 1/2 with
example counts 1, 2, 1. -/
def c2demo : List (ℕ × Metrics) :=
  [(1, [("accuracy", 1 / 4)]), (2, [("accuracy", 3 / 4)]),
    (1, [("accuracy", 1 / 2)])]

/-- C2 witness: the hypotheses hold of `c2demo` and the theorem applies. -/
theorem C2_weights_sum_to_one_convex_witness :
    (c2demo ≠ [] ∧ (∀ p ∈ c2demo, 0 < p.1) ∧
      ∀ p ∈ c2demo, (getAccuracy p.2).isSome) ∧
    ((clientWeights c2demo).length = c2demo.length ∧
    (∀ w ∈ clientWeights c2demo, 0 ≤ w) ∧
    (clientWeights c2demo).sum = 1 ∧
    ∃ r, weighted_average c2demo = Except.ok [("accuracy", r)] ∧
      (∀ lo, (∀ p ∈ c2demo, lo ≤ accVal p.2) → lo ≤ r) ∧
      (∀ hi, (∀ p ∈ c2demo, accVal p.2 ≤ hi) → r ≤ hi)) :=
  ⟨⟨by decide, by decide, by decide⟩,
    C2_weights_sum_to_one_convex c2demo (by decide) (by decide) (by decide)⟩

/-- C3: aggregation of a single returned update is the identity —
`weighted_average [(n, m)]` with `n > 0` returns
`{"accuracy": m["accuracy"]}` unchanged, and the single client's implicit
weight is `1`. -/
theorem C3_single_update_identity (n : ℕ) (m : Metrics) (hn : 0 < n)
    (hm : (getAccuracy m).isSome) :
    weighted_average [(n, m)] = Except.ok [("accuracy", accVal m)] ∧
    clientWeights [(n, m)] = [1] := by
  have hn' : (n : ℚ) ≠ 0 := Nat.cast_ne_zero.mpr (Nat.pos_iff_ne_zero.mp hn)
  constructor
  · rw [weighted_average_eq [(n, m)] (by simpa using hm) (by simpa using hn.ne.symm)]
    simp [mul_div_assoc, mul_div_cancel_left₀ _ hn']
  · simp [clientWeights, div_self hn']

/-- C3 witness: the sole respondent `(5, {"accuracy": 3/4})`. -/
theorem C3_single_update_identity_witness :
    (0 < 5 ∧ (getAccuracy [("accuracy", 3 / 4)]).isSome) ∧
    (weighted_average [(5, [("accuracy", 3 / 4)])] =
        Except.ok [("accuracy", accVal [("accuracy", 3 / 4)])] ∧
      clientWeights [(5, [("accuracy", 3 / 4)])] = [1]) :=
  ⟨⟨by decide, by decide⟩,
    C3_single_update_identity 5 [("accuracy", 3 / 4)] (by decide) (by decide)⟩

/-- C4: the claim asserts that, with the fixed `SEED`, two runs produce
identical strategy-to-partition assignments. This fails on the code:
`random.shuffle(client_strategies)` executes in the module body
(main.py line 195) before `sow_seed(SEED)` runs in the `__main__` guard
(line 241), so the shuffle consumes draws from the not-yet-seeded RNG.
Two runs with the same base catalogue and the same `SEED` but different
ambient pre-seed draws (here `[0]` and `[1]`) seed the RNGs identically
yet produce different `client_strategies` lists, hence different
strategy-to-partition bindings. -/
theorem C4_shuffle_runs_before_seeding :
    (moduleStartup ["TitForTat", "Random"] [0]).rngSeededWith =
        (moduleStartup ["TitForTat", "Random"] [1]).rngSeededWith ∧
      (moduleStartup ["TitForTat", "Random"] [0]).client_strategies =
        ["Random", "TitForTat"] ∧
      (moduleStartup ["TitForTat", "Random"] [1]).client_strategies =
        ["TitForTat", "Random"] ∧
      (moduleStartup ["TitForTat", "Random"] [0]).client_strategies ≠
        (moduleStartup ["TitForTat", "Random"] [1]).client_strategies := by
  decide

/-- C5 counterexample: the claim says the seed passed to `set_seed`
differs for any two distinct partition ids, but partitions 0 and 1 both
receive the same value. -/
theorem C5_counterexample :
    (0 : ℕ) ≠ 1 ∧ clientFnSetSeedArg 0 = clientFnSetSeedArg 1 := by
  decide

/-- C5 amended: every agent's game strategy is seeded with the module
constant `SEED = 42` — the same value for every partition id, and
`client_fn` is invoked once per client with no round parameter, so the
seed does not vary per round either. Strategies are thereby reproducible,
but not differentiated per agent or per round. -/
theorem C5_seed_is_constant_SEED :
    ∀ partition_id : ℕ, clientFnSetSeedArg partition_id = SEED ∧
      clientFnSetSeedArg partition_id = 42 :=
  fun _ => ⟨rfl, rfl⟩

/-- C6: `NUM_PARTITIONS` is the length of the strategy list built at
startup, and `client_fn` binds each partition id `i < NUM_PARTITIONS` to
exactly one strategy — the one at index `i` of that list; the binding is
a pure lookup, so it is the same at every invocation. -/
theorem C6_one_agent_per_partition (cs : List String) (i : ℕ)
    (h : i < NUM_PARTITIONS cs) :
    NUM_PARTITIONS cs = cs.length ∧
    ∃ s, clientStrategyFor cs i = some s ∧
      (∀ s₂, clientStrategyFor cs i = some s₂ → s₂ = s) ∧
      ∀ j : Fin cs.length, (j : ℕ) = i → cs.get j = s := by
  refine ⟨rfl, cs.get ⟨i, h⟩, ?_, ?_, ?_⟩
  · exact List.get?_eq_get h
  · intro s₂ h₂
    have := (List.get?_eq_get h).symm.trans h₂
    exact (Option.some_inj.mp this).symm
  · intro j hj
    cases j with
    | mk jv hjv =>
      subst hj
      rfl

/-- C6 witness: a two-strategy list, partition id 0. -/
theorem C6_one_agent_per_partition_witness :
    0 < NUM_PARTITIONS ["TitForTat", "Defector"] ∧
    (NUM_PARTITIONS ["TitForTat", "Defector"] =
        (["TitForTat", "Defector"] : List String).length ∧
    ∃ s, clientStrategyFor ["TitForTat", "Defector"] 0 = some s ∧
      (∀ s₂, clientStrategyFor ["TitForTat", "Defector"] 0 = some s₂ →
        s₂ = s) ∧
      ∀ j : Fin (["TitForTat", "Defector"] : List String).length,
        (j : ℕ) = 0 → (["TitForTat", "Defector"] : List String).get j = s) :=
  ⟨by decide, C6_one_agent_per_partition ["TitForTat", "Defector"] 0
    (by decide)⟩

/-- C7: the `ServerConfig` built by `server_fn` carries
`num_rounds = 20`, and the orchestrator state machine (modelled from the
spec, §4.5) is still running after 19 completed iterations and reaches
`TERMINATE` after exactly `num_rounds = 20` iterations. -/
theorem C7_terminates_after_num_rounds (model : Model) :
    (server_fn model).config.num_rounds = num_rounds ∧
    num_rounds = 20 ∧
    (orchStep (server_fn model).config)^[19] (OrchPhase.running 0) =
      OrchPhase.running 19 ∧
    (orchStep (server_fn model).config)^[20] (OrchPhase.running 0) =
      OrchPhase.TERMINATE := by
  have hc : (server_fn model).config = ServerConfig.mk 20 := rfl
  refine ⟨rfl, rfl, ?_, ?_⟩ <;> rw [hc] <;> decide

/-- C8: the `FedAvg` strategy built by `server_fn` is constructed with
`fraction_fit = 0.5`, `fraction_evaluate = 0.1`, `weighted_average` as
the evaluate-metrics aggregation callback, and the parameters of the
freshly initialised model as `initial_parameters`. -/
theorem C8_fedavg_construction (model : Model) :
    (server_fn model).strategy.fraction_fit = 1 / 2 ∧
    (server_fn model).strategy.fraction_evaluate = 1 / 10 ∧
    (server_fn model).strategy.evaluate_metrics_aggregation_fn =
      weighted_average ∧
    (server_fn model).strategy.initial_parameters =
      ndarrays_to_parameters (get_params model) :=
  ⟨rfl, rfl, rfl, rfl⟩

/-- C9: on the empty list — and on every input whose example counts sum
to zero — `weighted_average` does not return a value: it fails with the
division-by-zero error rather than treating the round as a no-op. -/
theorem C9_zero_examples_division_error (l : List (ℕ × Metrics))
    (hacc : ∀ p ∈ l, (getAccuracy p.2).isSome)
    (hsum : (l.map (fun p => p.1)).sum = 0) :
    weighted_average l = Except.error "ZeroDivisionError" := by
  unfold weighted_average
  rw [accTimesExamples_eq_ok l hacc]
  simp [hsum]

/-- C10: evaluation does not modify the model. When the loader's batches
partition its dataset, `test` returns an accuracy equal to the number of
correctly classified examples divided by the test-set size, and the
network it leaves behind has exactly the parameters it was given (the
only mutation is `net.eval()`, which clears the training flag; there is
no gradient or optimizer step to undo that). This holds for every
forward function and every loss criterion. -/
theorem C10_test_preserves_params (α : Type) (forward : Net → α → List ℚ)
    (criterion : List (List ℚ) → List ℕ → ℚ) (net : Net)
    (testloader : DataLoader α)
    (hb : testloader.batches.flatten = testloader.dataset) :
    (test forward criterion net testloader).2.params = net.params ∧
    (test forward criterion net testloader).2.training = false ∧
    (test forward criterion net testloader).1.2 =
      ((countCorrect forward net.evalMode testloader.dataset : ℕ) : ℚ) /
        ((testloader.dataset.length : ℕ) : ℚ) := by
  refine ⟨rfl, rfl, ?_⟩
  have hfold := test_fold_correct forward criterion net.evalMode
    testloader.batches ((0 : ℕ), (0 : ℚ))
  have hjoin : countCorrect forward net.evalMode testloader.dataset =
      (testloader.batches.map (countCorrect forward net.evalMode)).sum := by
    rw [← hb, countCorrect_flatten]
  show (((testloader.batches.foldl _ ((0 : ℕ), (0 : ℚ))).1 : ℕ) : ℚ) /
      ((testloader.dataset.length : ℕ) : ℚ) = _
  rw [hfold, hjoin]
  simp

/-- Concrete network for the C10 witness. -/
def c10net : Net := Net.mk [[3, 1], [2]] true

/-- Concrete forward function for the C10 witness: class scores
`[x, 1]`, predicting class 0 exactly when `x > 1`. -/
def c10forward : Net → ℕ → List ℚ := fun _ x => [(x : ℚ), 1]

/-- Concrete criterion for the C10 witness. -/
def c10criterion : List (List ℚ) → List ℕ → ℚ := fun _ _ => 7

/-- Concrete loader for the C10 witness: two singleton batches
partitioning a two-example dataset; example `(0, 1)` is classified
correctly (`argmax [0, 1] = 1`), example `(5, 1)` is not
(`argmax [5, 1] = 0`). -/
def c10loader : DataLoader ℕ :=
  DataLoader.mk [(0, 1), (5, 1)] [[(0, 1)], [(5, 1)]]

/-- C10 witness: the batches of `c10loader` partition its dataset and
the theorem applies. -/
theorem C10_test_preserves_params_witness :
    c10loader.batches.flatten = c10loader.dataset ∧
    ((test c10forward c10criterion c10net c10loader).2.params =
        c10net.params ∧
    (test c10forward c10criterion c10net c10loader).2.training = false ∧
    (test c10forward c10criterion c10net c10loader).1.2 =
      ((countCorrect c10forward c10net.evalMode c10loader.dataset : ℕ) : ℚ) /
        ((c10loader.dataset.length : ℕ) : ℚ)) :=
  ⟨rfl, C10_test_preserves_params ℕ c10forward c10criterion c10net
    c10loader rfl⟩

/-- C9 witness: the empty input list. -/
theorem C9_zero_examples_division_error_witness :
    ((∀ p ∈ ([] : List (ℕ × Metrics)), (getAccuracy p.2).isSome) ∧
      (([] : List (ℕ × Metrics)).map (fun p => p.1)).sum = 0) ∧
    weighted_average [] = Except.error "ZeroDivisionError" :=
  ⟨⟨by decide, by decide⟩,
    C9_zero_examples_division_error [] (by decide) (by decide)⟩

end FedT4T
